import Mathlib

/-!
# Pocket Holdem server core: shallow embedding and verification

This file embeds the authoritative server core of the pocket-holdem-mvp
repository (TypeScript: `Interfaces.ts`, `Player.ts`, `PokerEngine.ts`,
`GameController.ts`) as executable Lean definitions, and proves or refutes the
specification claims about it.

Modelling conventions:
* JS numbers holding chip amounts, bet amounts, pot amounts and timestamps are
  modelled as `Int` (all arithmetic on them in the source is exact integer
  arithmetic).  Card ranks and hand scores are `Nat`.
* `null` / `undefined`-able fields are `Option`.
* In-place mutation of `Player` / `GameState` objects becomes explicit state
  passing: each mutator returns the updated value.
* JS `Array.prototype.sort` with a numeric comparator is a stable sort; we use
  `List.insertionSort` with the corresponding non-strict relation, which is
  stable in the same way.
-/

namespace PocketHoldem

/-- `Suit` enum from `Interfaces.ts`. -/
inductive Suit
  | SPADES
  | HEARTS
  | DIAMONDS
  | CLUBS
deriving DecidableEq, Repr

/-- `Card` from `Interfaces.ts`: a suit and a rank in `2..14` (A = 14). -/
structure Card where
  suit : Suit
  rank : Nat
deriving DecidableEq, Repr

/-- `PlayerStatus` enum from `Interfaces.ts`. -/
inductive PlayerStatus
  | WAITING
  | ACTIVE
  | FOLDED
  | ALL_IN
  | ELIMINATED
  | SPECTATING
deriving DecidableEq, Repr

/-- `GamePhase` enum from `Interfaces.ts`. -/
inductive GamePhase
  | IDLE
  | PRE_FLOP
  | FLOP
  | TURN
  | RIVER
  | SHOWDOWN
deriving DecidableEq, Repr

/-- `ActionType` enum from `Interfaces.ts`. -/
inductive ActionType
  | FOLD
  | CHECK
  | CALL
  | RAISE
  | ALL_IN
deriving DecidableEq, Repr

/-- `HandRank` enum from `Interfaces.ts` (value doubles as the numeric level
used by `calculateScore`). -/
abbrev HandRank := Nat

namespace HandRank

def HIGH_CARD : HandRank := 1
def ONE_PAIR : HandRank := 2
def TWO_PAIR : HandRank := 3
def THREE_OF_A_KIND : HandRank := 4
def STRAIGHT : HandRank := 5
def FLUSH : HandRank := 6
def FULL_HOUSE : HandRank := 7
def FOUR_OF_A_KIND : HandRank := 8
def STRAIGHT_FLUSH : HandRank := 9
def ROYAL_FLUSH : HandRank := 10

end HandRank

/-- The `Player` class of `Player.ts` (server-side state container).
`socketId` / `lastActionTime` are connection bookkeeping irrelevant to the
game-logic claims and are omitted. -/
structure Player where
  id : String
  nickname : String
  seatIndex : Option Int
  chips : Int
  status : PlayerStatus
  currentBet : Int
  totalBetThisHand : Int
  isDealer : Bool
  isCurrentTurn : Bool
  hasActed : Bool
  isFolded : Bool
  isAllIn : Bool
  isHost : Bool
  isReady : Bool
  holeCards : List Card
deriving DecidableEq, Repr

namespace Player

/-- `Player.deductChips(amount)`: clamp to available chips, move the clamped
amount into `currentBet` and `totalBetThisHand`, switch an ACTIVE player whose
chips reach zero to ALL_IN.  Returns the updated player and the actual amount
deducted (the TS method mutates `this` and returns the amount). -/
def deductChips (p : Player) (amount : Int) : Player × Int :=
  let actualAmount := min amount p.chips
  let p1 : Player :=
    { p with
      chips := p.chips - actualAmount
      currentBet := p.currentBet + actualAmount
      totalBetThisHand := p.totalBetThisHand + actualAmount }
  if p1.chips = 0 ∧ p1.status = PlayerStatus.ACTIVE then
    ({ p1 with isAllIn := true, status := PlayerStatus.ALL_IN }, actualAmount)
  else
    (p1, actualAmount)

/-- `Player.addChips(amount)`: add chips; a previously ELIMINATED player whose
chips become positive moves back to WAITING. -/
def addChips (p : Player) (amount : Int) : Player :=
  let p1 : Player := { p with chips := p.chips + amount }
  if p1.status = PlayerStatus.ELIMINATED ∧ 0 < p1.chips then
    { p1 with status := PlayerStatus.WAITING }
  else
    p1

/-- `Player.resetForNewHand()`. -/
def resetForNewHand (p : Player) : Player :=
  let p1 : Player :=
    { p with
      holeCards := []
      currentBet := 0
      totalBetThisHand := 0
      isDealer := false
      isCurrentTurn := false
      hasActed := false
      isFolded := false
      isAllIn := false
      isReady := false }
  match p.seatIndex with
  | some _ =>
      if 0 < p.chips then { p1 with status := PlayerStatus.ACTIVE }
      else { p1 with status := PlayerStatus.ELIMINATED }
  | none => p1

/-- `Player.resetForNewRound()`. -/
def resetForNewRound (p : Player) : Player :=
  { p with currentBet := 0, hasActed := false }

/-- `Player.sitDown(seatIndex)`. -/
def sitDown (p : Player) (seatIndex : Int) : Player :=
  { p with seatIndex := some seatIndex, status := PlayerStatus.WAITING }

/-- `Player.standUp()`: clear the seat, go SPECTATING, then reset per-hand
fields (an unseated player keeps its status through `resetForNewHand`). -/
def standUp (p : Player) : Player :=
  resetForNewHand { p with seatIndex := none, status := PlayerStatus.SPECTATING }

/-- `Player.fold()`. -/
def fold (p : Player) : Player :=
  { p with isFolded := true, status := PlayerStatus.FOLDED, hasActed := true }

/-- `Player.allIn()`: delegates to `deductChips(this.chips)` and returns the
pre-deduction chip count. -/
def allIn (p : Player) : Player × Int :=
  ((deductChips p p.chips).1, p.chips)

/-- `Player.markAsWaiting()`. -/
def markAsWaiting (p : Player) : Player :=
  { p with status := PlayerStatus.WAITING }

/-- `Player.markAsEliminated()`: set status ELIMINATED and clear hole cards
(the chip count is not touched). -/
def markAsEliminated (p : Player) : Player :=
  { p with status := PlayerStatus.ELIMINATED, holeCards := [] }

/-- `Player.canPlay()`. -/
def canPlay (p : Player) : Bool :=
  p.seatIndex.isSome
    && decide (0 < p.chips)
    && decide (p.status ≠ PlayerStatus.ELIMINATED)
    && decide (p.status ≠ PlayerStatus.SPECTATING)
    && decide (p.status ≠ PlayerStatus.WAITING)

/-- `Player.isInHand()`. -/
def isInHand (p : Player) : Bool :=
  p.canPlay && !p.isFolded

/-- `Player.canAct()`. -/
def canAct (p : Player) : Bool :=
  p.isInHand && !p.isAllIn && p.isCurrentTurn

end Player

/-- The invariant claimed of the Player entity: an ELIMINATED player holds no
chips. -/
def elimImpliesBroke (p : Player) : Prop :=
  p.status = PlayerStatus.ELIMINATED → p.chips = 0

instance (p : Player) : Decidable (elimImpliesBroke p) := by
  unfold elimImpliesBroke; infer_instance

/-- A concrete ACTIVE player holding 5 chips (all other fields idle). -/
def activeWithChips : Player :=
  { id := "p1", nickname := "A", seatIndex := some 0, chips := 5
    status := PlayerStatus.ACTIVE, currentBet := 0, totalBetThisHand := 0
    isDealer := false, isCurrentTurn := false, hasActed := false
    isFolded := false, isAllIn := false, isHost := false, isReady := false
    holeCards := [] }




/-- `Pot` from `Interfaces.ts`. -/
structure Pot where
  amount : Int
  eligiblePlayerIds : List String
deriving DecidableEq, Repr

/-- `ActionRecord` from `Interfaces.ts`. -/
structure ActionRecord where
  playerId : String
  action : ActionType
  amount : Int
  phase : GamePhase
  timestamp : Int
deriving DecidableEq, Repr

/-- `GameState` from `Interfaces.ts` (server-side full version). -/
structure GameState where
  phase : GamePhase
  communityCards : List Card
  pots : List Pot
  currentPlayerIndex : Option Int
  dealerIndex : Int
  smallBlindIndex : Int
  bigBlindIndex : Int
  currentBet : Int
  minRaise : Int
  roundIndex : Int
  turnTimeout : Int
  stateVersion : Int
  handId : String
  roundId : String
  deck : List Card
  handNumber : Int
  actionHistory : List ActionRecord
deriving DecidableEq, Repr

/-- `RoomConfig` from `Interfaces.ts`. -/
structure RoomConfig where
  initialChips : Int
  smallBlind : Int
  bigBlind : Int
  maxPlayers : Int
  turnTimeout : Int
deriving DecidableEq, Repr

/-- The parts of `Room` (`Interfaces.ts`) the game logic reads: the player map
(in insertion order, as `Array.from(room.players.values())` produces it) and
the game state.  Identifiers, seat map and spectator bookkeeping are not used
by the claims. -/
structure Room where
  players : List Player
  gameState : Option GameState
  config : RoomConfig
deriving DecidableEq, Repr

namespace PokerEngine

/-- `PokerEngine.drawCards(deck, count)`: splice `count` cards off the top;
returns the drawn cards and the remaining deck (the TS method mutates the
array). -/
def drawCards (deck : List Card) (count : Nat) : List Card × List Card :=
  (deck.take count, deck.drop count)

/-- `PokerEngine.dealCommunityCards(deck, count)`: burn one card, then deal
`count`. -/
def dealCommunityCards (deck : List Card) (count : Nat) : List Card × List Card :=
  let burned := drawCards deck 1
  drawCards burned.2 count

/-- The tier walk inside `PokerEngine.calculateSidePots`: iterate over the
bet-ascending player list; at each strictly increasing contribution tier, cut a
pot of `(tier - previousTier) * (players at this tier or above)`, eligible to
the not-folded players at this tier or above; if every such player has folded,
the layer goes to the first not-folded contributor of the whole sorted list
(when one exists). -/
def sidePotsWalk (allSorted : List Player) (prevBet : Int) :
    List Player → List Pot
  | [] => []
  | p :: rest =>
    let currentBet := p.currentBet
    let betDiff := currentBet - prevBet
    if 0 < betDiff then
      let contributorsCount := (p :: rest).length
      let potAmount := betDiff * (contributorsCount : Int)
      let eligiblePlayerIds := ((p :: rest).filter (fun q => !q.isFolded)).map (·.id)
      if eligiblePlayerIds.isEmpty then
        match allSorted.filter (fun q => !q.isFolded) with
        | [] => sidePotsWalk allSorted currentBet rest
        | s :: _ =>
            { amount := potAmount, eligiblePlayerIds := [s.id] } ::
              sidePotsWalk allSorted currentBet rest
      else
        { amount := potAmount, eligiblePlayerIds := eligiblePlayerIds } ::
          sidePotsWalk allSorted currentBet rest
    else
      sidePotsWalk allSorted currentBet rest

/-- `PokerEngine.calculateSidePots(players)`: keep the players with a positive
`currentBet`, sort them ascending by `currentBet` (stable, like JS `sort`),
and walk the contribution tiers. -/
def calculateSidePots (players : List Player) : List Pot :=
  let playersWithBets := players.filter (fun p => decide (0 < p.currentBet))
  if playersWithBets.isEmpty then []
  else
    let sortedPlayers :=
      playersWithBets.insertionSort (fun a b => a.currentBet ≤ b.currentBet)
    sidePotsWalk sortedPlayers 0 sortedPlayers

end PokerEngine

/-- `EvaluatedHand` from `Interfaces.ts`. -/
structure EvaluatedHand where
  rank : HandRank
  rankName : String
  bestCards : List Card
  kickers : List Nat
  score : Nat
deriving DecidableEq, Repr

namespace PokerEngine

/-!
Hand evaluation (`PokerEngine.evaluateFiveCards` and helpers).  These TS
methods are only ever applied to 5-card hands with ranks in `2..14`; on such
inputs every indexed access below is in range, so the JS `xs[i]` accesses are
rendered as `headD 0` / `take`.
-/

/-- `PokerEngine.isFlush(cards)`: every card has the suit of the first one
(the TS code reads `cards[0].suit`; callers never pass an empty hand). -/
def isFlush (cards : List Card) : Bool :=
  match cards with
  | [] => true
  | c :: _ => cards.all (fun x => decide (x.suit = c.suit))

/-- The consecutive-descending-ranks check of `PokerEngine.getStraight`
(`ranks[i] === ranks[i-1] - 1` for every `i ≥ 1`). -/
def isDescRun : List Nat → Bool
  | [] => true
  | [_] => true
  | a :: b :: rest => decide (b = a - 1) && isDescRun (b :: rest)

/-- `PokerEngine.getStraight(sortedCards)`: the cards in straight order if
they form a straight, `null` otherwise; the wheel A-2-3-4-5 is reordered to
5-4-3-2-A. -/
def getStraight (sortedCards : List Card) : Option (List Card) :=
  let ranks := sortedCards.map (·.rank)
  if isDescRun ranks then some sortedCards
  else
    match sortedCards with
    | [c0, c1, c2, c3, c4] =>
      if c0.rank = 14 ∧ c1.rank = 5 ∧ c2.rank = 4 ∧ c3.rank = 3 ∧ c4.rank = 2 then
        some [c1, c2, c3, c4, c0]
      else none
    | _ => none

/-- The result record of `PokerEngine.getGroups`. -/
structure RankGroups where
  four : List Nat
  three : List Nat
  pairs : List Nat
  singles : List Nat
deriving DecidableEq, Repr

/-- `PokerEngine.getGroups(cards)`: bucket the distinct ranks by multiplicity
(4 / 3 / 2 / everything else), each bucket sorted descending.  The JS `Map`
iterates in first-occurrence order; since every bucket is then sorted, using
`eraseDups` for the distinct ranks is order-equivalent. -/
def getGroups (cards : List Card) : RankGroups :=
  let ranks := cards.map (·.rank)
  let uniq := ranks.eraseDups
  let sortDesc := fun (l : List Nat) => l.insertionSort (fun a b => b ≤ a)
  { four := sortDesc (uniq.filter (fun r => ranks.count r = 4))
    three := sortDesc (uniq.filter (fun r => ranks.count r = 3))
    pairs := sortDesc (uniq.filter (fun r => ranks.count r = 2))
    singles := sortDesc (uniq.filter
      (fun r => ranks.count r ≠ 4 ∧ ranks.count r ≠ 3 ∧ ranks.count r ≠ 2)) }

/-- `PokerEngine.calculateScore(rank, kickers)`:
`rank * 10^10 + kickers[0] * 10^8 + kickers[1] * 10^6 + ...` (at most 5
kickers). -/
def calculateScore (rank : HandRank) (kickers : List Nat) : Nat :=
  (kickers.take 5).enum.foldl
    (fun s ik => s + ik.2 * 10 ^ (8 - 2 * ik.1)) (rank * 10 ^ 10)

/-- Rank of the first card of a straight run (`straight[0].rank`). -/
def headRank (cards : List Card) : Nat :=
  (cards.headD { suit := Suit.SPADES, rank := 0 }).rank

/-- `PokerEngine.evaluateFiveCards(cards)`: sort descending by rank, then walk
the category cascade royal flush → straight flush → four of a kind → full
house → flush → straight → three of a kind → two pair → one pair → high card,
producing the category, its kicker vector and the collapsed score. -/
def evaluateFiveCards (cards : List Card) : EvaluatedHand :=
  let sorted := cards.insertionSort (fun a b => b.rank ≤ a.rank)
  let flush := isFlush sorted
  let straight := getStraight sorted
  let groups := getGroups sorted
  let rk :=
    if flush && straight.isSome && decide (headRank (straight.getD []) = 14) then
      (HandRank.ROYAL_FLUSH, "皇家同花顺", ([] : List Nat))
    else if flush && straight.isSome then
      (HandRank.STRAIGHT_FLUSH, "同花顺", [headRank (straight.getD [])])
    else if groups.four.length = 1 then
      (HandRank.FOUR_OF_A_KIND, "四条", [groups.four.headD 0, groups.singles.headD 0])
    else if groups.three.length = 1 ∧ 1 ≤ groups.pairs.length then
      (HandRank.FULL_HOUSE, "葫芦", [groups.three.headD 0, groups.pairs.headD 0])
    else if flush then
      (HandRank.FLUSH, "同花", sorted.map (·.rank))
    else if straight.isSome then
      (HandRank.STRAIGHT, "顺子", [headRank (straight.getD [])])
    else if groups.three.length = 1 then
      (HandRank.THREE_OF_A_KIND, "三条", groups.three.headD 0 :: groups.singles.take 2)
    else if 2 ≤ groups.pairs.length then
      (HandRank.TWO_PAIR, "两对", groups.pairs.take 2 ++ [groups.singles.headD 0])
    else if groups.pairs.length = 1 then
      (HandRank.ONE_PAIR, "一对", groups.pairs.headD 0 :: groups.singles.take 3)
    else
      (HandRank.HIGH_CARD, "高牌", sorted.map (·.rank))
  { rank := rk.1
    rankName := rk.2.1
    bestCards := straight.getD sorted
    kickers := rk.2.2
    score := calculateScore rk.1 rk.2.2 }

/-- `PokerEngine.getCombinations(arr, k)`: all `k`-element sublists, keeping
order (those containing the first element come first, as in the TS
recursion). -/
def getCombinations : List α → Nat → List (List α)
  | _, 0 => [[]]
  | [], _ + 1 => []
  | a :: rest, k + 1 =>
    if (a :: rest).length < k + 1 then []
    else ((getCombinations rest k).map (a :: ·)) ++ getCombinations rest (k + 1)

/-- The body of the best-hand loop in `PokerEngine.evaluateHand`: keep the
evaluation with the strictly larger score. -/
def pickBestStep (best : Option EvaluatedHand) (combo : List Card) :
    Option EvaluatedHand :=
  let evaluated := evaluateFiveCards combo
  match best with
  | none => some evaluated
  | some b => if b.score < evaluated.score then some evaluated else some b

/-- `PokerEngine.evaluateHand(holeCards, communityCards)`: evaluate every
5-card combination of the 7 cards and keep the best.  The TS method ends with
a non-null assertion (`bestHand!`); the `none` case is only reachable on
fewer than 5 cards, which callers never pass. -/
def evaluateHand (holeCards communityCards : List Card) : Option EvaluatedHand :=
  (getCombinations (holeCards ++ communityCards) 5).foldl pickBestStep none

end PokerEngine

namespace PokerEngine

/-!
Pot awarding (`PokerEngine.awardPots`).  The TS method receives
`playerHandRanks : Map<string, EvaluatedHand>`, modelled as an association
list with `lookup`, and returns a `Map<string, number>` of winnings, modelled
as a total function initialised to 0 (matching both the explicit
initialisation loop and the `winnings.get(id) || 0` fallback).
-/

/-- `pot.eligiblePlayerIds.map(id => ({id, hand: get(id)})).filter(defined)`. -/
def eligibleWithHands (pot : Pot)
    (playerHandRanks : List (String × EvaluatedHand)) :
    List (String × EvaluatedHand) :=
  pot.eligiblePlayerIds.filterMap
    (fun id => (playerHandRanks.lookup id).map (fun h => (id, h)))

/-- `Math.max(...scores)` over the eligible entries; scores are naturals, so
folding from 0 agrees with JS `Math.max` on every nonempty input. -/
def maxScore (l : List (String × EvaluatedHand)) : Nat :=
  l.foldl (fun m p => max m p.2.score) 0

/-- `players.find(p => p.id === id)?.seatIndex ?? 99`. -/
def seatOfId (players : List Player) (id : String) : Int :=
  (((players.find? (fun p => decide (p.id = id))).bind (fun p => p.seatIndex)).getD 99)

/-- The winners sorted ascending by seat index (stable, like JS `sort`). -/
def sortWinnersBySeat (players : List Player)
    (winners : List (String × EvaluatedHand)) : List (String × EvaluatedHand) :=
  winners.insertionSort (fun a b => seatOfId players a.1 ≤ seatOfId players b.1)

/-- The distribution loop of `awardPots`: walk the seat-sorted winners giving
each `shareBase`, plus one extra chip while `remainder > 0`. -/
def assignShares (shareBase : Int) :
    Int → List (String × EvaluatedHand) → List (String × Int)
  | _, [] => []
  | remainder, w :: rest =>
    if 0 < remainder then
      (w.1, shareBase + 1) :: assignShares shareBase (remainder - 1) rest
    else
      (w.1, shareBase) :: assignShares shareBase remainder rest

/-- `eligibleWithHands.filter(p => p.hand.score === maxScore)`: the entries
tied at the maximum score. -/
def potWinners (pot : Pot)
    (playerHandRanks : List (String × EvaluatedHand)) :
    List (String × EvaluatedHand) :=
  (eligibleWithHands pot playerHandRanks).filter
    (fun p => decide (p.2.score = maxScore (eligibleWithHands pot playerHandRanks)))

/-- The per-pot body of the `for (const pot of pots)` loop in `awardPots`:
restrict to eligible ids with an evaluated hand (skip the pot if none), pick
those tied at the maximum score, and distribute
`shareBase = floor(amount / winners)` with the `amount % winners` remainder
chips going to the winners with smallest seats.  Pot amounts are nonnegative
in every reachable state, where `Int./` coincides with JS
`Math.floor(amount / n)`. -/
def awardOnePot (pot : Pot) (playerHandRanks : List (String × EvaluatedHand))
    (players : List Player) : List (String × Int) :=
  let eligible := eligibleWithHands pot playerHandRanks
  if eligible.isEmpty then []
  else
    let winners := potWinners pot playerHandRanks
    let shareBase := pot.amount / (winners.length : Int)
    let remainder := pot.amount % (winners.length : Int)
    assignShares shareBase remainder (sortWinnersBySeat players winners)

/-- `PokerEngine.awardPots(pots, playerHandRanks, players)`: fold the per-pot
winnings into the map (every player starts at 0). -/
def awardPots (pots : List Pot)
    (playerHandRanks : List (String × EvaluatedHand))
    (players : List Player) : String → Int :=
  pots.foldl
    (fun w pot =>
      (awardOnePot pot playerHandRanks players).foldl
        (fun w2 share => fun x => if x = share.1 then w2 x + share.2 else w2 x) w)
    (fun _ => 0)

end PokerEngine

/-- JS `Array.prototype.indexOf` (`-1` when absent), used by
`advancePhaseOrShowdown` on the phase order table. -/
def jsIndexOf [DecidableEq α] : List α → α → Int
  | [], _ => -1
  | x :: xs, a =>
    if x = a then 0
    else
      match jsIndexOf xs a with
      | -1 => -1
      | i => i + 1

/-- `PlayerActionPayload` from `Interfaces.ts` (`amount` is optional and read
as `payload.amount ?? 0`). -/
structure PlayerActionPayload where
  action : ActionType
  amount : Option Int
  roundIndex : Int
  requestId : String
deriving DecidableEq, Repr

namespace PokerEngine

/-- `PokerEngine.getNextActingPlayer(players, currentIndex)`: among the
seated, not-folded, not-all-in, not-ELIMINATED, not-WAITING players in seat
order, the first seat strictly after `currentIndex`, wrapping to the first;
`null` when nobody can act.  (TS reads `gameState.currentPlayerIndex!`; a
`null` index compares like 0 in JS, which `getD 0` at the call sites
mirrors.) -/
def getNextActingPlayer (players : List Player) (currentIndex : Int) :
    Option Int :=
  let actingPlayers :=
    (players.filter (fun p =>
      p.seatIndex.isSome && !p.isFolded && !p.isAllIn &&
      decide (p.status ≠ PlayerStatus.ELIMINATED) &&
      decide (p.status ≠ PlayerStatus.WAITING))).insertionSort
      (fun a b => a.seatIndex.getD 0 ≤ b.seatIndex.getD 0)
  match actingPlayers with
  | [] => none
  | first :: _ =>
    match actingPlayers.find? (fun p => decide (currentIndex < p.seatIndex.getD 0)) with
    | some p => p.seatIndex
    | none => first.seatIndex

end PokerEngine

namespace GameController

/-- `getSeatedPlayers` over a player list: seated players sorted by seat
index (ascending, stable). -/
def seatedPlayersOf (players : List Player) : List Player :=
  (players.filter (fun p => p.seatIndex.isSome)).insertionSort
    (fun a b => a.seatIndex.getD 0 ≤ b.seatIndex.getD 0)

/-- `GameController.getSeatedPlayers(room)`. -/
def getSeatedPlayers (room : Room) : List Player :=
  seatedPlayersOf room.players

/-- `getActivePlayers` over a player list. -/
def activePlayersOf (players : List Player) : List Player :=
  (seatedPlayersOf players).filter
    (fun p => !p.isFolded && !p.isAllIn && decide (p.status = PlayerStatus.ACTIVE))

/-- `GameController.getActivePlayers(room)`. -/
def getActivePlayers (room : Room) : List Player :=
  activePlayersOf room.players

/-- The phase progression table of `advancePhaseOrShowdown`. -/
def phaseOrder : List GamePhase :=
  [GamePhase.PRE_FLOP, GamePhase.FLOP, GamePhase.TURN, GamePhase.RIVER,
   GamePhase.SHOWDOWN]

/-- Result of `GameController.advancePhaseOrShowdown` (TS returns
`GamePhase | 'SHOWDOWN' | 'END_HAND'`). -/
inductive AdvanceResult
  | NEXT_PHASE (phase : GamePhase)
  | GOTO_SHOWDOWN
  | END_HAND
deriving DecidableEq, Repr

/-- The `while (communityCards.length < 5)` dealing loop in
`advancePhaseOrShowdown`: burn-and-deal 3 (on an empty board) or 1 card per
iteration.  Fuel 5 covers every reachable input (0 → 3 → 4 → 5); the TS loop
has no deck-exhaustion guard and would spin forever on an empty deck, which the
fuel cuts off. -/
def fillCommunityCards : Nat → List Card → List Card → List Card × List Card
  | 0, comm, deck => (comm, deck)
  | fuel + 1, comm, deck =>
    if comm.length < 5 then
      let dealt :=
        PokerEngine.dealCommunityCards deck (if comm.length = 0 then 3 else 1)
      fillCommunityCards fuel (comm ++ dealt.1) dealt.2
    else (comm, deck)

/-- `GameController.advancePhaseOrShowdown(room)`: if at most one player is
still in the hand, end it; otherwise **replace** `gameState.pots` with
`calculateSidePots` over the seated players, reset every seated player for the
new round, and advance the phase (skipping straight to showdown when at most
one non-all-in player remains, dealing out the board). -/
def advancePhaseOrShowdown (room : Room) : AdvanceResult × Room :=
  match room.gameState with
  | none => (AdvanceResult.END_HAND, room)  -- unreachable: TS `room.gameState!`
  | some gs =>
    let players := getSeatedPlayers room
    let remainingPlayers := players.filter
      (fun p => p.isInHand && !p.isFolded && decide (p.status ≠ PlayerStatus.ELIMINATED))
    if remainingPlayers.length ≤ 1 then (AdvanceResult.END_HAND, room)
    else
      let pots := PokerEngine.calculateSidePots players
      let newPlayers := room.players.map
        (fun p => if p.seatIndex.isSome then p.resetForNewRound else p)
      let gs1 := { gs with pots := pots }
      let room1 : Room := { room with players := newPlayers, gameState := some gs1 }
      let currentIndex := jsIndexOf phaseOrder gs.phase
      let nextPhase :=
        if currentIndex + 1 < 0 then none
        else phaseOrder.get? (currentIndex + 1).toNat
      match nextPhase with
      | none => (AdvanceResult.GOTO_SHOWDOWN, room1)
      | some GamePhase.SHOWDOWN => (AdvanceResult.GOTO_SHOWDOWN, room1)
      | some np =>
        let nonAllInPlayers := remainingPlayers.filter (fun p => !p.isAllIn)
        if nonAllInPlayers.length ≤ 1 then
          let filled := fillCommunityCards 5 gs1.communityCards gs1.deck
          (AdvanceResult.GOTO_SHOWDOWN,
            { room1 with
              gameState := some
                { gs1 with communityCards := filled.1, deck := filled.2 } })
        else (AdvanceResult.NEXT_PHASE np, room1)

/-- Update the player object with the given id in place (the TS executors
mutate the `Player` instance stored in `room.players`; ids are unique map
keys). -/
def updatePlayerById (players : List Player) (pid : String)
    (f : Player → Player) : List Player :=
  players.map (fun p => if p.id = pid then f p else p)

/-- The `if (gameState.pots.length === 0) ... ; gameState.pots[0].amount +=`
fallback shared by `executeCall` / `executeRaise` / `executeAllIn`. -/
def bumpMainPot (pots : List Pot) (amount : Int) : List Pot :=
  match pots with
  | [] => [{ amount := amount, eligiblePlayerIds := [] }]
  | p0 :: rest => { p0 with amount := p0.amount + amount } :: rest

/-- `GameController.executeFold`. -/
def executeFold (gs : GameState) (players : List Player) (pid : String) :
    Except String (GameState × List Player) :=
  Except.ok (gs, updatePlayerById players pid
    (fun p => { p.fold with isCurrentTurn := false }))

/-- `GameController.executeCheck`: legal only when no call is owed. -/
def executeCheck (gs : GameState) (players : List Player) (pid : String) :
    Except String (GameState × List Player) :=
  match players.find? (fun p => decide (p.id = pid)) with
  | none => Except.error "PLAYER_NOT_FOUND"  -- unreachable: the caller passes a room player
  | some player =>
    if player.currentBet < gs.currentBet then
      Except.error "CANNOT_CHECK_MUST_CALL"
    else
      Except.ok (gs, updatePlayerById players pid
        (fun p => { p with hasActed := true, isCurrentTurn := false }))

/-- `GameController.executeCall`: pay `currentBet - player.currentBet`
(clamped by `deductChips`) into the main pot. -/
def executeCall (gs : GameState) (players : List Player) (pid : String) :
    Except String (GameState × List Player) :=
  match players.find? (fun p => decide (p.id = pid)) with
  | none => Except.error "PLAYER_NOT_FOUND"
  | some player =>
    let callAmount := gs.currentBet - player.currentBet
    if callAmount ≤ 0 then
      Except.error "NOTHING_TO_CALL"
    else
      Except.ok
        ({ gs with pots := bumpMainPot gs.pots (player.deductChips callAmount).2 },
         updatePlayerById players pid
           (fun p => { (p.deductChips callAmount).1 with
                        hasActed := true, isCurrentTurn := false }))

/-- `GameController.executeRaise(room, player, raiseAmount)`: `raiseAmount` is
the new total bet; reject it when below `currentBet + minRaise` unless it is
the player's whole stack, and when it exceeds the stack; on success update
`currentBet` / `minRaise` and clear `hasActed` of every other seated,
non-folded, non-all-in player. -/
def executeRaise (gs : GameState) (players : List Player) (pid : String)
    (raiseAmount : Int) : Except String (GameState × List Player) :=
  match players.find? (fun p => decide (p.id = pid)) with
  | none => Except.error "PLAYER_NOT_FOUND"
  | some player =>
    if raiseAmount < gs.currentBet + gs.minRaise ∧
        raiseAmount < player.chips + player.currentBet then
      Except.error "RAISE_TOO_SMALL"
    else if player.chips < raiseAmount - player.currentBet then
      Except.error "NOT_ENOUGH_CHIPS"
    else
      Except.ok
        ({ gs with
            pots := bumpMainPot gs.pots
              (player.deductChips (raiseAmount - player.currentBet)).2
            currentBet := raiseAmount
            minRaise := max gs.minRaise (raiseAmount - gs.currentBet) },
         players.map (fun p =>
           if p.id = pid then
             { (p.deductChips (raiseAmount - player.currentBet)).1 with
                hasActed := true, isCurrentTurn := false }
           else if p.seatIndex.isSome && !p.isFolded && !p.isAllIn then
             { p with hasActed := false }
           else p))

/-- `GameController.executeAllIn`: push the whole stack into the main pot;
when the resulting total bet exceeds `currentBet`, treat it as a raise —
update `currentBet` / `minRaise` and clear every other seated, non-folded,
non-all-in player's `hasActed` (with **no** check against `minRaise`). -/
def executeAllIn (gs : GameState) (players : List Player) (pid : String) :
    Except String (GameState × List Player) :=
  match players.find? (fun p => decide (p.id = pid)) with
  | none => Except.error "PLAYER_NOT_FOUND"
  | some player =>
    let totalBet := player.currentBet + player.chips
    let gs1 := { gs with pots := bumpMainPot gs.pots (player.allIn).2 }
    if gs.currentBet < totalBet then
      Except.ok
        ({ gs1 with
            currentBet := totalBet
            minRaise := max gs.minRaise (totalBet - gs.currentBet) },
         players.map (fun p =>
           if p.id = pid then
             { (p.allIn).1 with hasActed := true, isCurrentTurn := false }
           else if p.seatIndex.isSome && !p.isFolded && !p.isAllIn then
             { p with hasActed := false }
           else p))
    else
      Except.ok
        (gs1,
         players.map (fun p =>
           if p.id = pid then
             { (p.allIn).1 with hasActed := true, isCurrentTurn := false }
           else p))

/-- `GameController.isRoundComplete(players, currentBet)` (the controller's
private copy used by `processAction`). -/
def isRoundComplete (players : List Player) (currentBet : Int) : Bool :=
  let activePlayers := players.filter (fun p =>
    p.seatIndex.isSome && !p.isFolded &&
    decide (p.status ≠ PlayerStatus.ELIMINATED) &&
    decide (p.status ≠ PlayerStatus.WAITING))
  if activePlayers.length ≤ 1 then true
  else
    let nonAllInPlayers := activePlayers.filter (fun p => !p.isAllIn)
    if nonAllInPlayers.isEmpty then true
    else nonAllInPlayers.all (fun p => p.hasActed && decide (p.currentBet = currentBet))

/-- `GameController.moveToNextPlayer(room)`: clear `isCurrentTurn` on the
active players, pick the next acting seat, set its `isCurrentTurn` and the
new `turnTimeout = now + turnTimeout * 1000` (the timer object itself lives
outside `Room`). -/
def moveToNextPlayer (players : List Player) (config : RoomConfig)
    (gs : GameState) (now : Int) : GameState × List Player :=
  let players1 := players.map (fun p =>
    if p.seatIndex.isSome && !p.isFolded && !p.isAllIn &&
        decide (p.status = PlayerStatus.ACTIVE)
    then { p with isCurrentTurn := false } else p)
  let nextIndex := PokerEngine.getNextActingPlayer (activePlayersOf players)
    (gs.currentPlayerIndex.getD 0)
  match nextIndex with
  | none => ({ gs with currentPlayerIndex := none }, players1)
  | some idx =>
    match (activePlayersOf players).find? (fun p => decide (p.seatIndex = some idx)) with
    | none => ({ gs with currentPlayerIndex := some idx }, players1)
    | some nextPlayer =>
        ({ gs with
            currentPlayerIndex := some idx
            turnTimeout := now + config.turnTimeout * 1000 },
         updatePlayerById players1 nextPlayer.id
           (fun p => { p with isCurrentTurn := true }))

/-- The GameController's request-id LRU: the `processedRequests` Set (a JS Set
iterates in insertion order, so a list models it) and the `requestQueue`
array.  It lives on the (process-wide) controller instance. -/
structure RequestLRU where
  processedRequests : List String
  requestQueue : List String
deriving DecidableEq, Repr

/-- `GameController.addProcessedRequest(requestId)` with `MAX_REQUESTS = 500`:
evict the oldest queued id from the set when full, then record the new id
(`Set.add` is a no-op on a present element; `push` always appends). -/
def addProcessedRequest (lru : RequestLRU) (requestId : String) : RequestLRU :=
  let evicted :=
    if 500 ≤ lru.processedRequests.length then
      match lru.requestQueue with
      | [] => lru  -- `shift()` on an empty queue returns undefined; nothing is deleted
      | oldest :: restQueue =>
          { processedRequests := lru.processedRequests.erase oldest
            requestQueue := restQueue }
    else lru
  { processedRequests :=
      if evicted.processedRequests.contains requestId then evicted.processedRequests
      else evicted.processedRequests ++ [requestId]
    requestQueue := evicted.requestQueue ++ [requestId] }

/-- Dispatch on `payload.action` (the `switch` in `processAction`). -/
def executeAction (gs : GameState) (players : List Player) (pid : String)
    (payload : PlayerActionPayload) : Except String (GameState × List Player) :=
  match payload.action with
  | ActionType.FOLD => executeFold gs players pid
  | ActionType.CHECK => executeCheck gs players pid
  | ActionType.CALL => executeCall gs players pid
  | ActionType.RAISE => executeRaise gs players pid (payload.amount.getD 0)
  | ActionType.ALL_IN => executeAllIn gs players pid

/-- Result of `GameController.processAction`: the `ActionResult` flags plus
the (possibly updated) room and request LRU.  On failure the input room and
LRU are returned untouched, as the TS method leaves them unmodified. -/
structure PAOutcome where
  error : Option String
  room : Room
  lru : RequestLRU
  shouldAdvancePhase : Bool
  shouldEndHand : Bool
deriving DecidableEq, Repr

/-- `GameController.processAction(room, player, payload)`: the ordered
validation pipeline (duplicate request id → stale round index → wrong seat →
cannot act), then the action executor, and on success: record the request id,
append to `actionHistory`, compute the round-complete / hand-end flags, move
to the next player when neither flag is set, and bump `stateVersion`.
(Between validation and execution the TS code clears the per-room action
timer, which lives outside `Room`.)  `now` stands for `Date.now()`. -/
def processAction (lru : RequestLRU) (room : Room) (pid : String)
    (payload : PlayerActionPayload) (now : Int) : PAOutcome :=
  match room.gameState with
  | none => ⟨some "GAME_NOT_STARTED", room, lru, false, false⟩
  | some gs =>
    if lru.processedRequests.contains payload.requestId then
      ⟨some "DUPLICATE_REQUEST", room, lru, false, false⟩
    else if payload.roundIndex ≠ gs.roundIndex then
      ⟨some "STALE_REQUEST", room, lru, false, false⟩
    else
      match room.players.find? (fun p => decide (p.id = pid)) with
      | none => ⟨some "PLAYER_NOT_FOUND", room, lru, false, false⟩  -- the TS caller passes a player of this room
      | some player =>
        if player.seatIndex ≠ gs.currentPlayerIndex then
          ⟨some "NOT_YOUR_TURN", room, lru, false, false⟩
        else if !player.canAct then
          ⟨some "CANNOT_ACT", room, lru, false, false⟩
        else
          match executeAction gs room.players pid payload with
          | Except.error e => ⟨some e, room, lru, false, false⟩
          | Except.ok (gs1, players1) =>
            let lru1 := addProcessedRequest lru payload.requestId
            let gs2 := { gs1 with actionHistory := gs1.actionHistory ++
                [{ playerId := pid, action := payload.action,
                   amount := payload.amount.getD 0, phase := gs1.phase,
                   timestamp := now }] }
            let seated := seatedPlayersOf players1
            let advance := isRoundComplete seated gs2.currentBet
            let remaining := seated.filter (fun p =>
              p.isInHand && !p.isFolded &&
              decide (p.status ≠ PlayerStatus.ELIMINATED))
            let endHand := decide (remaining.length ≤ 1)
            let moved :=
              if !endHand && !advance then
                moveToNextPlayer players1 room.config gs2 now
              else (gs2, players1)
            ⟨none,
             { room with
                players := moved.2
                gameState := some { moved.1 with stateVersion := moved.1.stateVersion + 1 } },
             lru1, advance, endHand⟩

end GameController

/-- Σ chips over a room's players (part of the conservation quantity). -/
def chipsTotal (room : Room) : Int :=
  (room.players.map (·.chips)).sum

/-- Σ pot amounts of a room's game state. -/
def potsTotal (room : Room) : Int :=
  match room.gameState with
  | none => 0
  | some gs => (gs.pots.map (·.amount)).sum

section SidePotCounterexamples

/-- Template player for the concrete scenarios (mirrors `new Player({...})`
defaults: status SPECTATING, zero bets, no flags). -/
def mkIdlePlayer (id : String) (seat : Int) (chips : Int) : Player :=
  { id := id, nickname := id, seatIndex := some seat, chips := chips
    status := PlayerStatus.SPECTATING, currentBet := 0, totalBetThisHand := 0
    isDealer := false, isCurrentTurn := false, hasActed := false
    isFolded := false, isAllIn := false, isHost := false, isReady := false
    holeCards := [] }

/-- The players of the repo's own side-pot unit test
(`poker.showdown.test.ts`, "简单边池"): contributions are recorded in
`totalBetThisHand` (100 all-in / 150 / 150), `currentBet` is 0. -/
def sidePotTestPlayers : List Player :=
  [{ mkIdlePlayer "p1" 0 0 with totalBetThisHand := 100, isAllIn := true },
   { mkIdlePlayer "p2" 1 100 with totalBetThisHand := 150 },
   { mkIdlePlayer "p3" 2 0 with totalBetThisHand := 150 }]


/-- A two-player room observed at the FLOP → TURN boundary after the flop was
checked through: blinds 10/20 were called pre-flop (each player contributed 20,
`totalBetThisHand` = 20, pot 40), the flop round had no bets
(`currentBet` = 0 for both). -/
def checkedFlopPlayer (id : String) (seat : Int) : Player :=
  { mkIdlePlayer id seat 980 with
    status := PlayerStatus.ACTIVE, totalBetThisHand := 20, hasActed := true }

def checkedFlopRoom : Room :=
  { players := [checkedFlopPlayer "a" 0, checkedFlopPlayer "b" 1]
    gameState := some
      { phase := GamePhase.FLOP
        communityCards :=
          [⟨Suit.SPADES, 2⟩, ⟨Suit.HEARTS, 7⟩, ⟨Suit.DIAMONDS, 11⟩]
        pots := [{ amount := 40, eligiblePlayerIds := ["a", "b"] }]
        currentPlayerIndex := none
        dealerIndex := 0, smallBlindIndex := 0, bigBlindIndex := 1
        currentBet := 0, minRaise := 20, roundIndex := 1
        turnTimeout := 0, stateVersion := 12
        handId := "hand-1", roundId := "round-2"
        deck := [⟨Suit.CLUBS, 3⟩, ⟨Suit.CLUBS, 4⟩, ⟨Suit.CLUBS, 5⟩, ⟨Suit.CLUBS, 6⟩]
        handNumber := 1, actionHistory := [] }
    config :=
      { initialChips := 1000, smallBlind := 10, bigBlind := 20
        maxPlayers := 6, turnTimeout := 30 } }


end SidePotCounterexamples


/-- The wheel straight A-2-3-4-5 in mixed suits (not a flush). -/
def wheelCards : List Card :=
  [⟨Suit.SPADES, 14⟩, ⟨Suit.HEARTS, 2⟩, ⟨Suit.DIAMONDS, 3⟩, ⟨Suit.CLUBS, 4⟩,
   ⟨Suit.SPADES, 5⟩]

/-- The suited wheel A-2-3-4-5 of spades (a straight flush). -/
def suitedWheelCards : List Card :=
  [⟨Suit.SPADES, 14⟩, ⟨Suit.SPADES, 2⟩, ⟨Suit.SPADES, 3⟩, ⟨Suit.SPADES, 4⟩,
   ⟨Suit.SPADES, 5⟩]

/-- A mixed-suit straight with high card `h` (for `6 ≤ h ≤ 14`): the cards
`h, h-1, h-2, h-3, h-4` in non-uniform suits.  `mkStraightCards 6` is the
straight 2-3-4-5-6. -/
def mkStraightCards (h : Nat) : List Card :=
  [⟨Suit.SPADES, h⟩, ⟨Suit.HEARTS, h - 1⟩, ⟨Suit.DIAMONDS, h - 2⟩,
   ⟨Suit.CLUBS, h - 3⟩, ⟨Suit.SPADES, h - 4⟩]

/-- Player template for the betting-round scenarios: ACTIVE, 980 chips, 20
already bet this round (blinds called). -/
def betRoundPlayer (id : String) (seat : Int) (turn : Bool) : Player :=
  { mkIdlePlayer id seat 980 with
    status := PlayerStatus.ACTIVE, currentBet := 20, totalBetThisHand := 20
    hasActed := true, isCurrentTurn := turn }

/-- Pre-flop game state after the blinds were called: `currentBet = 20`,
`minRaise = 20` (spec scenario 3). -/
def raiseGS : GameState :=
  { phase := GamePhase.PRE_FLOP, communityCards := []
    pots := [{ amount := 60, eligiblePlayerIds := ["p1", "p2", "p3"] }]
    currentPlayerIndex := some 2
    dealerIndex := 0, smallBlindIndex := 1, bigBlindIndex := 2
    currentBet := 20, minRaise := 20, roundIndex := 1
    turnTimeout := 0, stateVersion := 5
    handId := "hand-1", roundId := "round-1"
    deck := [], handNumber := 1, actionHistory := [] }

/-- Seats 0/1/2, all having called 20; seat 2 is to act. -/
def raisePlayers : List Player :=
  [betRoundPlayer "p1" 0 false, betRoundPlayer "p2" 1 false,
   betRoundPlayer "p3" 2 true]

/-- The state after seat 2 raises to 60 (total). -/
def raisedPair : GameState × List Player :=
  match GameController.executeRaise raiseGS raisePlayers "p3" 60 with
  | Except.ok pr => pr
  | Except.error _ => (raiseGS, raisePlayers)

/-- Two players: seat 0 has acted at `currentBet = 20`; seat 1 holds only 5
chips and is to act.  `minRaise` is 20, so seat 1's all-in to a 25 total is
an undersized raise. -/
def allInGS : GameState :=
  { raiseGS with
    currentPlayerIndex := some 1
    pots := [{ amount := 40, eligiblePlayerIds := ["p1", "p2"] }] }

def shortStackPlayer : Player :=
  { betRoundPlayer "p2" 1 true with chips := 5, hasActed := false }

def allInPlayers : List Player :=
  [betRoundPlayer "p1" 0 false, shortStackPlayer]

/-- The state after seat 1's undersized all-in. -/
def allInPair : GameState × List Player :=
  match GameController.executeAllIn allInGS allInPlayers "p2" with
  | Except.ok pr => pr
  | Except.error _ => (allInGS, allInPlayers)

/-- A room around `raiseGS`, used by the action-pipeline scenarios. -/
def actionRoom : Room :=
  { players := raisePlayers
    gameState := some raiseGS
    config :=
      { initialChips := 1000, smallBlind := 10, bigBlind := 20
        maxPlayers := 6, turnTimeout := 30 } }

/-- A fresh controller LRU (no processed request ids). -/
def emptyLRU : GameController.RequestLRU :=
  { processedRequests := [], requestQueue := [] }

/-- Seat 2's raise-to-60 action with request id `req-1`. -/
def raisePayload : PlayerActionPayload :=
  { action := ActionType.RAISE, amount := some 60, roundIndex := 1
    requestId := "req-1" }

/-- A tied evaluation shared by the pot-awarding witness players. -/
def tieHand : EvaluatedHand :=
  { rank := HandRank.ONE_PAIR, rankName := "一对", bestCards := []
    kickers := [14, 13, 12, 11], score := 21413121100 }

/-- Two tied players (seats 0 and 1) splitting an odd 101-chip pot. -/
def tiePlayers : List Player := [mkIdlePlayer "p1" 0 0, mkIdlePlayer "p2" 1 0]

def tiePot : Pot := { amount := 101, eligiblePlayerIds := ["p1", "p2"] }

def tieHands : List (String × EvaluatedHand) := [("p1", tieHand), ("p2", tieHand)]

/-- Concrete 7-card input for the evaluation claims: a royal-flush hand. -/
def sampleHole : List Card := [⟨Suit.SPADES, 14⟩, ⟨Suit.SPADES, 13⟩]

def sampleCommunity : List Card :=
  [⟨Suit.SPADES, 12⟩, ⟨Suit.SPADES, 11⟩, ⟨Suit.SPADES, 10⟩, ⟨Suit.HEARTS, 5⟩,
   ⟨Suit.CLUBS, 2⟩]

/-! ## Claim theorems -/

/-- Auxiliary: `getCombinations` produces exactly `choose` many sublists. -/
theorem getCombinations_length {α : Type} (l : List α) :
    ∀ k, (PokerEngine.getCombinations l k).length = l.length.choose k := by
  induction l with
  | nil =>
      intro k
      cases k with
      | zero => simp [PokerEngine.getCombinations]
      | succ k => simp [PokerEngine.getCombinations, Nat.choose]
  | cons a rest ih =>
      intro k
      cases k with
      | zero => simp [PokerEngine.getCombinations]
      | succ k =>
          simp only [PokerEngine.getCombinations]
          split_ifs with h
          · have h2 : rest.length < k := by simpa using h
            simp [Nat.choose_eq_zero_of_lt (Nat.succ_lt_succ h2)]
          · simp [List.length_append, List.length_map, ih, List.length_cons,
              Nat.choose_succ_succ]

/-- Auxiliary: the best-hand fold of `evaluateHand`, started at `some b`,
returns an evaluation drawn from `{b} ∪ evaluateFiveCards '' combos` that
dominates `b` and every combination's score. -/
theorem foldl_pickBestStep_spec (combos : List (List Card)) :
    ∀ b : EvaluatedHand,
      ∃ e, combos.foldl PokerEngine.pickBestStep (some b) = some e ∧
        (e = b ∨ ∃ c ∈ combos, e = PokerEngine.evaluateFiveCards c) ∧
        b.score ≤ e.score ∧
        ∀ c ∈ combos, (PokerEngine.evaluateFiveCards c).score ≤ e.score := by
  induction combos with
  | nil =>
      intro b
      exact ⟨b, rfl, Or.inl rfl, le_refl _, by simp⟩
  | cons c cs ih =>
      intro b
      rw [List.foldl_cons]
      by_cases h : b.score < (PokerEngine.evaluateFiveCards c).score
      · have hstep : PokerEngine.pickBestStep (some b) c =
            some (PokerEngine.evaluateFiveCards c) := by
          simp [PokerEngine.pickBestStep, h]
        rw [hstep]
        obtain ⟨e, he, hmem, hle, hub⟩ := ih (PokerEngine.evaluateFiveCards c)
        refine ⟨e, he, ?_, le_trans (le_of_lt h) hle, ?_⟩
        · rcases hmem with h1 | ⟨c2, hc2, he2⟩
          · exact Or.inr ⟨c, List.mem_cons_self c cs, h1⟩
          · exact Or.inr ⟨c2, List.mem_cons_of_mem _ hc2, he2⟩
        · intro c2 hc2
          rcases List.mem_cons.mp hc2 with rfl | hmem2
          · exact hle
          · exact hub c2 hmem2
      · have hstep : PokerEngine.pickBestStep (some b) c = some b := by
          simp [PokerEngine.pickBestStep, h]
        rw [hstep]
        obtain ⟨e, he, hmem, hle, hub⟩ := ih b
        refine ⟨e, he, ?_, hle, ?_⟩
        · rcases hmem with h1 | ⟨c2, hc2, he2⟩
          · exact Or.inl h1
          · exact Or.inr ⟨c2, List.mem_cons_of_mem _ hc2, he2⟩
        · intro c2 hc2
          rcases List.mem_cons.mp hc2 with rfl | hmem2
          · exact le_trans (not_lt.mp h) hle
          · exact hub c2 hmem2

/-- **C3.**  On a 7-card input (2 hole + 5 community cards), `evaluateHand`
enumerates all C(7,5) = 21 five-card combinations and returns the evaluation
of one of them whose score dominates every combination — i.e. the best 5-card
subset's score equals the engine's 7-card score. -/
theorem evaluateHand_best_of_21 (hole comm : List Card)
    (h2 : hole.length = 2) (h5 : comm.length = 5) :
    (PokerEngine.getCombinations (hole ++ comm) 5).length = 21 ∧
    ∃ e, PokerEngine.evaluateHand hole comm = some e ∧
      (∃ combo ∈ PokerEngine.getCombinations (hole ++ comm) 5,
        e = PokerEngine.evaluateFiveCards combo) ∧
      ∀ combo ∈ PokerEngine.getCombinations (hole ++ comm) 5,
        (PokerEngine.evaluateFiveCards combo).score ≤ e.score := by
  have hlen : (PokerEngine.getCombinations (hole ++ comm) 5).length = 21 := by
    rw [getCombinations_length, List.length_append, h2, h5]
    decide
  refine ⟨hlen, ?_⟩
  unfold PokerEngine.evaluateHand
  cases hc : PokerEngine.getCombinations (hole ++ comm) 5 with
  | nil => rw [hc] at hlen; simp at hlen
  | cons c cs =>
      rw [List.foldl_cons]
      have hstep : PokerEngine.pickBestStep none c =
          some (PokerEngine.evaluateFiveCards c) := rfl
      rw [hstep]
      obtain ⟨e, he, hmem, hle, hub⟩ :=
        foldl_pickBestStep_spec cs (PokerEngine.evaluateFiveCards c)
      refine ⟨e, he, ?_, ?_⟩
      · rcases hmem with h1 | ⟨c2, hc2, he2⟩
        · exact ⟨c, List.mem_cons_self c cs, h1⟩
        · exact ⟨c2, List.mem_cons_of_mem _ hc2, he2⟩
      · intro combo hcombo
        rcases List.mem_cons.mp hcombo with rfl | hmem2
        · exact hle
        · exact hub combo hmem2

/-- **C3 witness**: the 21-combination property instantiated on a concrete
royal-flush hand. -/
theorem evaluateHand_best_of_21_witness :
    (PokerEngine.getCombinations (sampleHole ++ sampleCommunity) 5).length = 21 ∧
    ∃ e, PokerEngine.evaluateHand sampleHole sampleCommunity = some e ∧
      (∃ combo ∈ PokerEngine.getCombinations (sampleHole ++ sampleCommunity) 5,
        e = PokerEngine.evaluateFiveCards combo) ∧
      ∀ combo ∈ PokerEngine.getCombinations (sampleHole ++ sampleCommunity) 5,
        (PokerEngine.evaluateFiveCards combo).score ≤ e.score :=
  evaluateHand_best_of_21 sampleHole sampleCommunity rfl rfl

/-- **C4.**  The wheel A-2-3-4-5 is classified STRAIGHT with kicker vector
`[5]` (5 as high card); its score is strictly below the 2-3-4-5-6 straight
(`mkStraightCards 6`) and below every straight with high card `6..14`; and a
suited A-2-3-4-5 is a STRAIGHT_FLUSH with kicker `[5]`, not a ROYAL_FLUSH. -/
theorem wheel_straight_ranked_lowest :
    (PokerEngine.evaluateFiveCards wheelCards).rank = HandRank.STRAIGHT ∧
    (PokerEngine.evaluateFiveCards wheelCards).kickers = [5] ∧
    (PokerEngine.evaluateFiveCards wheelCards).score <
      (PokerEngine.evaluateFiveCards (mkStraightCards 6)).score ∧
    (∀ h, h < 15 → 6 ≤ h →
      (PokerEngine.evaluateFiveCards wheelCards).score <
        (PokerEngine.evaluateFiveCards (mkStraightCards h)).score) ∧
    (PokerEngine.evaluateFiveCards suitedWheelCards).rank =
      HandRank.STRAIGHT_FLUSH ∧
    (PokerEngine.evaluateFiveCards suitedWheelCards).rank ≠
      HandRank.ROYAL_FLUSH ∧
    (PokerEngine.evaluateFiveCards suitedWheelCards).kickers = [5] := by
  decide

/-- **C4 witness**: the universally quantified conjunct instantiated at the
ten-high straight. -/
theorem wheel_straight_ranked_lowest_witness :
    (PokerEngine.evaluateFiveCards wheelCards).score <
      (PokerEngine.evaluateFiveCards (mkStraightCards 10)).score :=
  wheel_straight_ranked_lowest.2.2.2.1 10 (by decide) (by decide)

/-- Auxiliary: the `Math.max` fold of `maxScore`, with an arbitrary
accumulator, yields either the accumulator or an attained score, dominates the
accumulator, and dominates every listed score. -/
theorem foldl_max_acc (l : List (String × EvaluatedHand)) :
    ∀ acc : Nat,
      (l.foldl (fun m p => max m p.2.score) acc = acc ∨
        ∃ e ∈ l, l.foldl (fun m p => max m p.2.score) acc = e.2.score) ∧
      acc ≤ l.foldl (fun m p => max m p.2.score) acc ∧
      ∀ e ∈ l, e.2.score ≤ l.foldl (fun m p => max m p.2.score) acc := by
  induction l with
  | nil => intro acc; exact ⟨Or.inl rfl, le_refl _, by simp⟩
  | cons x xs ih =>
      intro acc
      rw [List.foldl_cons]
      obtain ⟨hcase, hacc, hub⟩ := ih (max acc x.2.score)
      refine ⟨?_, le_trans (le_max_left _ _) hacc, ?_⟩
      · rcases hcase with heq | ⟨e, he, heq⟩
        · rcases le_total x.2.score acc with h1 | h1
          · exact Or.inl (heq.trans (max_eq_left h1))
          · exact Or.inr ⟨x, List.mem_cons_self x xs, heq.trans (max_eq_right h1)⟩
        · exact Or.inr ⟨e, List.mem_cons_of_mem _ he, heq⟩
      · intro e he
        rcases List.mem_cons.mp he with rfl | he2
        · exact le_trans (le_max_right _ _) hacc
        · exact hub e he2

/-- Auxiliary: `assignShares` keeps the list length. -/
theorem assignShares_length (base : Int) :
    ∀ (r : Int) (l : List (String × EvaluatedHand)),
      (PokerEngine.assignShares base r l).length = l.length := by
  intro r l
  induction l generalizing r with
  | nil => simp [PokerEngine.assignShares]
  | cons w rest ih =>
      simp only [PokerEngine.assignShares]
      split_ifs <;> simp [ih]

/-- Auxiliary: with `0 ≤ r ≤ |l|`, the distributed shares total
`|l| * base + r`. -/
theorem assignShares_sum (base : Int) :
    ∀ (r : Int) (l : List (String × EvaluatedHand)),
      0 ≤ r → r ≤ (l.length : Int) →
      ((PokerEngine.assignShares base r l).map Prod.snd).sum =
        (l.length : Int) * base + r := by
  intro r l
  induction l generalizing r with
  | nil =>
      intro h1 h2
      simp only [List.length_nil, Nat.cast_zero] at h2
      have : r = 0 := le_antisymm h2 h1
      simp [PokerEngine.assignShares, this]
  | cons w rest ih =>
      intro h1 h2
      simp only [List.length_cons, Nat.cast_succ] at h2
      simp only [PokerEngine.assignShares]
      split_ifs with h
      · rw [List.map_cons, List.sum_cons, ih (r - 1) (by omega) (by omega)]
        push_cast [List.length_cons]
        ring
      · have hr : r = 0 := by omega
        subst hr
        rw [List.map_cons, List.sum_cons, ih 0 le_rfl (by positivity)]
        push_cast [List.length_cons]
        ring

/-- Auxiliary: with `0 ≤ r`, the `i`-th share of `assignShares` is
`base + 1` for `i < r` and `base` otherwise. -/
theorem assignShares_get? (base : Int) :
    ∀ (r : Int) (l : List (String × EvaluatedHand)) (i : Nat),
      0 ≤ r →
      (PokerEngine.assignShares base r l).get? i =
        (l.get? i).map (fun w => (w.1, base + if (i : Int) < r then 1 else 0)) := by
  intro r l
  induction l generalizing r with
  | nil => intro i h; simp [PokerEngine.assignShares]
  | cons w rest ih =>
      intro i h
      by_cases hpos : 0 < r
      · have heq : PokerEngine.assignShares base r (w :: rest) =
            (w.1, base + 1) :: PokerEngine.assignShares base (r - 1) rest := by
          simp [PokerEngine.assignShares, hpos]
        rw [heq]
        cases i with
        | zero =>
            rw [List.get?_cons_zero, List.get?_cons_zero]
            simp [hpos]
        | succ i =>
            rw [List.get?_cons_succ, List.get?_cons_succ, ih (r - 1) i (by omega)]
            cases h2 : rest.get? i with
            | none => rfl
            | some w2 =>
                have hiff : ((i : Int) < r - 1) ↔ (((i + 1 : Nat) : Int) < r) := by
                  push_cast
                  omega
                simp [hiff]
      · have hr : r = 0 := by omega
        subst hr
        have heq : PokerEngine.assignShares base 0 (w :: rest) =
            (w.1, base) :: PokerEngine.assignShares base 0 rest := by
          simp [PokerEngine.assignShares]
        rw [heq]
        cases i with
        | zero =>
            rw [List.get?_cons_zero, List.get?_cons_zero]
            simp
        | succ i =>
            rw [List.get?_cons_succ, List.get?_cons_succ, ih 0 i le_rfl]
            cases h2 : rest.get? i with
            | none => rfl
            | some w2 =>
                have hiff : ((i : Int) < 0) ↔ (((i + 1 : Nat) : Int) < 0) := by
                  push_cast
                  omega
                simp [hiff]

/-- **C5.**  Per-pot awarding: when the pot has at least one eligible player
with an evaluated hand, the winner set is exactly the eligible entries tied at
the maximum score; the distributed shares sum to the pot amount; and the
`i`-th winner in ascending seat order receives
`floor(amount / winners) + 1` for `i < amount mod winners` and the bare share
otherwise (so the `r = amount mod winners` extra chips go to the `r` winners
with smallest seat indices). -/
theorem awardOnePot_distributes (pot : Pot)
    (hands : List (String × EvaluatedHand)) (players : List Player)
    (hne : PokerEngine.eligibleWithHands pot hands ≠ []) :
    PokerEngine.potWinners pot hands ≠ [] ∧
    (∀ w ∈ PokerEngine.potWinners pot hands,
      w ∈ PokerEngine.eligibleWithHands pot hands ∧
      w.2.score = PokerEngine.maxScore (PokerEngine.eligibleWithHands pot hands)) ∧
    (∀ e ∈ PokerEngine.eligibleWithHands pot hands,
      e.2.score ≤ PokerEngine.maxScore (PokerEngine.eligibleWithHands pot hands)) ∧
    (∀ e ∈ PokerEngine.eligibleWithHands pot hands,
      e.2.score = PokerEngine.maxScore (PokerEngine.eligibleWithHands pot hands) →
      e ∈ PokerEngine.potWinners pot hands) ∧
    ((PokerEngine.awardOnePot pot hands players).map Prod.snd).sum = pot.amount ∧
    (∀ i, (PokerEngine.awardOnePot pot hands players).get? i =
      ((PokerEngine.sortWinnersBySeat players
          (PokerEngine.potWinners pot hands)).get? i).map
        (fun w => (w.1,
          pot.amount / ((PokerEngine.potWinners pot hands).length : Int) +
            if (i : Int) <
                pot.amount % ((PokerEngine.potWinners pot hands).length : Int)
            then 1 else 0))) := by
  have hattain :
      ∃ e ∈ PokerEngine.eligibleWithHands pot hands,
        PokerEngine.maxScore (PokerEngine.eligibleWithHands pot hands) = e.2.score := by
    obtain ⟨hcase, -, -⟩ := foldl_max_acc (PokerEngine.eligibleWithHands pot hands) 0
    unfold PokerEngine.maxScore
    rcases hcase with heq | hex
    · -- the fold equals the accumulator 0: every score is ≤ 0, hence = 0
      obtain ⟨-, -, hub⟩ := foldl_max_acc (PokerEngine.eligibleWithHands pot hands) 0
      cases hel : PokerEngine.eligibleWithHands pot hands with
      | nil => exact absurd hel hne
      | cons e es =>
          refine ⟨e, by simp, ?_⟩
          have h1 := hub e (by rw [hel]; exact List.mem_cons_self e es)
          try rw [hel] at h1
          try rw [hel] at heq
          omega
    · obtain ⟨e, he, heq⟩ := hex
      exact ⟨e, he, heq⟩
  have hwne : PokerEngine.potWinners pot hands ≠ [] := by
    obtain ⟨e, he, heq⟩ := hattain
    intro hcontra
    have : e ∈ PokerEngine.potWinners pot hands := by
      unfold PokerEngine.potWinners
      rw [List.mem_filter]
      exact ⟨he, by simp [heq]⟩
    rw [hcontra] at this
    exact absurd this (List.not_mem_nil e)
  have hub := (foldl_max_acc (PokerEngine.eligibleWithHands pot hands) 0).2.2
  have hnpos : 0 < ((PokerEngine.potWinners pot hands).length : Int) := by
    cases hw : PokerEngine.potWinners pot hands with
    | nil => exact absurd hw hwne
    | cons a l => simp
  have hop : PokerEngine.awardOnePot pot hands players =
      PokerEngine.assignShares
        (pot.amount / ((PokerEngine.potWinners pot hands).length : Int))
        (pot.amount % ((PokerEngine.potWinners pot hands).length : Int))
        (PokerEngine.sortWinnersBySeat players (PokerEngine.potWinners pot hands)) := by
    unfold PokerEngine.awardOnePot
    rw [if_neg (by simpa [List.isEmpty_iff] using hne)]
  have hsortlen :
      (PokerEngine.sortWinnersBySeat players (PokerEngine.potWinners pot hands)).length =
        (PokerEngine.potWinners pot hands).length := by
    unfold PokerEngine.sortWinnersBySeat
    exact (List.perm_insertionSort _ _).length_eq
  refine ⟨hwne, ?_, ?_, ?_, ?_, ?_⟩
  · intro w hw
    unfold PokerEngine.potWinners at hw
    rw [List.mem_filter] at hw
    exact ⟨hw.1, by simpa using hw.2⟩
  · intro e he
    exact hub e he
  · intro e he heq
    unfold PokerEngine.potWinners
    rw [List.mem_filter]
    exact ⟨he, by simp [heq]⟩
  · rw [hop, assignShares_sum _ _ _
      (Int.emod_nonneg _ (by omega)) (by rw [hsortlen]; exact le_of_lt (Int.emod_lt_of_pos _ hnpos))]
    rw [hsortlen]
    exact Int.ediv_add_emod pot.amount _
  · intro i
    rw [hop, assignShares_get? _ _ _ _ (Int.emod_nonneg _ (by omega))]

/-- **C5 witness**: the distribution property at a concrete odd pot — a
101-chip pot tied between seats 0 and 1 splits 51/50 with the extra chip at
the smaller seat. -/
theorem awardOnePot_distributes_witness :
    PocketHoldem.PokerEngine.potWinners tiePot tieHands ≠ [] ∧
    (∀ w ∈ PokerEngine.potWinners tiePot tieHands,
      w ∈ PokerEngine.eligibleWithHands tiePot tieHands ∧
      w.2.score = PokerEngine.maxScore (PokerEngine.eligibleWithHands tiePot tieHands)) ∧
    (∀ e ∈ PokerEngine.eligibleWithHands tiePot tieHands,
      e.2.score ≤ PokerEngine.maxScore (PokerEngine.eligibleWithHands tiePot tieHands)) ∧
    (∀ e ∈ PokerEngine.eligibleWithHands tiePot tieHands,
      e.2.score = PokerEngine.maxScore (PokerEngine.eligibleWithHands tiePot tieHands) →
      e ∈ PokerEngine.potWinners tiePot tieHands) ∧
    ((PokerEngine.awardOnePot tiePot tieHands tiePlayers).map Prod.snd).sum =
      tiePot.amount ∧
    (∀ i, (PokerEngine.awardOnePot tiePot tieHands tiePlayers).get? i =
      ((PokerEngine.sortWinnersBySeat tiePlayers
          (PokerEngine.potWinners tiePot tieHands)).get? i).map
        (fun w => (w.1,
          tiePot.amount / ((PokerEngine.potWinners tiePot tieHands).length : Int) +
            if (i : Int) <
                tiePot.amount % ((PokerEngine.potWinners tiePot tieHands).length : Int)
            then 1 else 0))) :=
  awardOnePot_distributes tiePot tieHands tiePlayers (by decide)

/-- **C10 counterexample.**  `markAsEliminated` does not preserve the
"ELIMINATED implies zero chips" invariant: applied to a player with 5 chips it
yields an ELIMINATED player still holding 5 chips.  (Its in-repo caller
`GameController.endHand` only invokes it on players with `chips === 0`.) -/
theorem markAsEliminated_breaks_invariant :
    elimImpliesBroke activeWithChips ∧
    ¬ elimImpliesBroke (Player.markAsEliminated activeWithChips) := by
  decide

/-- **C10 (amended).**  Every `Player` mutator except `markAsEliminated`
preserves the invariant "status ELIMINATED implies zero chips" (for the
nonnegative amounts the callers pass); `addChips` on an ELIMINATED player whose
chips become positive moves it to WAITING; and `markAsEliminated` clears the
hole cards and preserves the invariant exactly when the player is already
broke, which is what its only caller guarantees. -/
theorem player_mutators_preserve_invariant (p : Player) (n s : Int)
    (hp : elimImpliesBroke p) (hn : 0 ≤ n) (hch : 0 ≤ p.chips) :
    elimImpliesBroke (Player.addChips p n) ∧
    (p.status = PlayerStatus.ELIMINATED → 0 < (Player.addChips p n).chips →
      (Player.addChips p n).status = PlayerStatus.WAITING) ∧
    elimImpliesBroke (Player.deductChips p n).1 ∧
    elimImpliesBroke (Player.fold p) ∧
    elimImpliesBroke (Player.sitDown p s) ∧
    elimImpliesBroke (Player.standUp p) ∧
    elimImpliesBroke (Player.allIn p).1 ∧
    elimImpliesBroke (Player.markAsWaiting p) ∧
    elimImpliesBroke (Player.resetForNewHand p) ∧
    elimImpliesBroke (Player.resetForNewRound p) ∧
    (Player.markAsEliminated p).holeCards = [] ∧
    (p.chips = 0 → elimImpliesBroke (Player.markAsEliminated p)) := by
  obtain ⟨i1, i2, pseat, pchips, pstatus, i3, i4, i5, i6, i7, i8, i9, i10, i11, i12⟩ := p
  unfold elimImpliesBroke at hp
  dsimp only at hp ⊢
  refine ⟨?_, ?_, ?_, ?_, ?_, ?_, ?_, ?_, ?_, ?_, ?_, ?_⟩
  · -- addChips
    simp only [Player.addChips, elimImpliesBroke]
    cases pstatus <;> simp_all <;> split_ifs <;> simp_all <;> omega
  · -- addChips status flip to WAITING
    intro helim
    subst helim
    simp only [Player.addChips, elimImpliesBroke]
    simp_all
    split_ifs <;> simp_all
  · -- deductChips
    simp only [Player.deductChips, elimImpliesBroke]
    cases pstatus <;> simp_all <;> split_ifs <;> simp_all <;> omega
  · -- fold
    simp only [Player.fold, elimImpliesBroke]
    intro h; simp at h
  · -- sitDown
    simp only [Player.sitDown, elimImpliesBroke]
    intro h; simp at h
  · -- standUp
    simp only [Player.standUp, Player.resetForNewHand, elimImpliesBroke]
    intro h; simp at h
  · -- allIn
    simp only [Player.allIn, Player.deductChips, elimImpliesBroke]
    cases pstatus <;> simp_all <;> split_ifs <;> simp_all <;> omega
  · -- markAsWaiting
    simp only [Player.markAsWaiting, elimImpliesBroke]
    intro h; simp at h
  · -- resetForNewHand
    simp only [Player.resetForNewHand, elimImpliesBroke]
    cases pseat <;> dsimp only <;> [skip; split_ifs with hchips] <;> simp_all <;> omega
  · -- resetForNewRound
    simp only [Player.resetForNewRound, elimImpliesBroke]
    simp_all
  · -- markAsEliminated clears hole cards
    rfl
  · -- markAsEliminated preserves the invariant when chips are already zero
    intro hz
    simp only [Player.markAsEliminated, elimImpliesBroke]
    intro _
    exact hz

/-- **C10 witness**: the amended theorem instantiated at a concrete broke
ELIMINATED player and amount 3. -/
def brokePlayer : Player :=
  { activeWithChips with chips := 0, status := PlayerStatus.ELIMINATED }

theorem player_mutators_preserve_invariant_witness :
    elimImpliesBroke (Player.addChips brokePlayer 3) ∧
    (brokePlayer.status = PlayerStatus.ELIMINATED →
      0 < (Player.addChips brokePlayer 3).chips →
      (Player.addChips brokePlayer 3).status = PlayerStatus.WAITING) ∧
    elimImpliesBroke (Player.deductChips brokePlayer 3).1 ∧
    elimImpliesBroke (Player.fold brokePlayer) ∧
    elimImpliesBroke (Player.sitDown brokePlayer 2) ∧
    elimImpliesBroke (Player.standUp brokePlayer) ∧
    elimImpliesBroke (Player.allIn brokePlayer).1 ∧
    elimImpliesBroke (Player.markAsWaiting brokePlayer) ∧
    elimImpliesBroke (Player.resetForNewHand brokePlayer) ∧
    elimImpliesBroke (Player.resetForNewRound brokePlayer) ∧
    (Player.markAsEliminated brokePlayer).holeCards = [] ∧
    (brokePlayer.chips = 0 → elimImpliesBroke (Player.markAsEliminated brokePlayer)) :=
  player_mutators_preserve_invariant brokePlayer 3 2 (by decide) (by decide) (by decide)

/-- **C2 (failing input).**  `calculateSidePots` reads `currentBet`, not
`totalBetThisHand`: on the repo's own unit-test input (contributions 100/150/150
stored in `totalBetThisHand`) it returns no pots at all, while the test (and
the spec) expect a 300-chip main pot and a 100-chip side pot, totalling
Σ `totalBetThisHand` = 400. -/
theorem calculateSidePots_ignores_totalBetThisHand :
    PokerEngine.calculateSidePots sidePotTestPlayers = [] ∧
    (sidePotTestPlayers.map (·.totalBetThisHand)).sum = 400 := by
  decide

/-- **C1 (failing input).**  Chip conservation is violated at a betting-round
boundary: in `checkedFlopRoom` the observable total is
Σ chips + Σ pots = 980 + 980 + 40 = 2000, but `advancePhaseOrShowdown`
replaces `gameState.pots` with `calculateSidePots` over the players' (zero)
`currentBet`, so the 40-chip pot vanishes and the total drops to 1960. -/
theorem advancePhase_loses_pot :
    chipsTotal checkedFlopRoom + potsTotal checkedFlopRoom = 2000 ∧
    (GameController.advancePhaseOrShowdown checkedFlopRoom).1 =
      GameController.AdvanceResult.NEXT_PHASE GamePhase.TURN ∧
    chipsTotal (GameController.advancePhaseOrShowdown checkedFlopRoom).2 +
      potsTotal (GameController.advancePhaseOrShowdown checkedFlopRoom).2 = 1960 := by
  decide

/-- **C6.**  A successful RAISE to total `amt` sets `currentBet = amt` and
`minRaise = max(previous minRaise, amt - previous currentBet)`, clears
`hasActed` of every other seated, non-folded, non-all-in player, and sets the
raiser's `hasActed`. -/
theorem executeRaise_updates (gs : GameState) (players : List Player)
    (pid : String) (amt : Int) (gs1 : GameState) (players1 : List Player)
    (hok : GameController.executeRaise gs players pid amt =
      Except.ok (gs1, players1)) :
    gs1.currentBet = amt ∧
    gs1.minRaise = max gs.minRaise (amt - gs.currentBet) ∧
    ∀ i p q, players.get? i = some p → players1.get? i = some q →
      ((p.id ≠ pid ∧ p.seatIndex.isSome = true ∧ p.isFolded = false ∧
          p.isAllIn = false) → q.hasActed = false) ∧
      (p.id = pid → q.hasActed = true) := by
  unfold GameController.executeRaise at hok
  cases hfind : players.find? (fun p => decide (p.id = pid)) with
  | none => rw [hfind] at hok; simp at hok
  | some player =>
      rw [hfind] at hok
      dsimp only at hok
      split_ifs at hok with h1 h2
      rw [Except.ok.injEq, Prod.mk.injEq] at hok
      obtain ⟨hgs, hpl⟩ := hok
      refine ⟨by rw [← hgs], by rw [← hgs], ?_⟩
      intro i p q hp hq
      rw [← hpl, List.get?_map, hp, Option.map_some'] at hq
      have hq2 := Option.some.inj hq
      constructor
      · rintro ⟨hid, hseat, hfold, hallin⟩
        rw [← hq2]
        rw [if_neg hid, if_pos (by simp [hseat, hfold, hallin])]
      · intro hid
        rw [← hq2, if_pos hid]

/-- **C6 witness**: the raise-clears-hasActed property at spec scenario 3 —
three players who called 20, seat 2 raises to 60. -/
theorem executeRaise_updates_witness :
    raisedPair.1.currentBet = 60 ∧
    raisedPair.1.minRaise = max raiseGS.minRaise (60 - raiseGS.currentBet) ∧
    ∀ i p q, raisePlayers.get? i = some p → raisedPair.2.get? i = some q →
      ((p.id ≠ "p3" ∧ p.seatIndex.isSome = true ∧ p.isFolded = false ∧
          p.isAllIn = false) → q.hasActed = false) ∧
      (p.id = "p3" → q.hasActed = true) :=
  executeRaise_updates raiseGS raisePlayers "p3" 60 raisedPair.1 raisedPair.2 rfl

/-- **C7 counterexample.**  An all-in 5 chips over a 20-chip `currentBet`
with `minRaise = 20` (an undersized raise: 25 − 20 < 20) still clears the
other player's `hasActed` flag: seat 0 had acted (`hasActed = true`) and ends
with `hasActed = false`, so the betting **is** reopened, contradicting the
claim. -/
theorem undersized_allin_clears_hasActed :
    allInGS.currentBet < 25 ∧
    25 - allInGS.currentBet < allInGS.minRaise ∧
    (allInPlayers.get? 0).map (·.hasActed) = some true ∧
    (GameController.executeAllIn allInGS allInPlayers "p2").toOption.map
      (fun pr => pr.2.map (fun p => (p.id, p.hasActed))) =
      some [("p1", false), ("p2", true)] := by
  decide

/-- **C7 (amended).**  Any successful ALL_IN whose resulting total bet
exceeds `gameState.currentBet` is treated as a raise and clears `hasActed` of
every other seated, non-folded, non-all-in player — the source performs no
`minRaise` comparison, so even an undersized all-in reopens the betting
(players who had already acted get `hasActed = false`). -/
theorem executeAllIn_above_currentBet_reopens (gs : GameState)
    (players : List Player) (pid : String) (gs1 : GameState)
    (players1 : List Player) (player : Player)
    (hfind : players.find? (fun p => decide (p.id = pid)) = some player)
    (hok : GameController.executeAllIn gs players pid =
      Except.ok (gs1, players1))
    (hgt : gs.currentBet < player.currentBet + player.chips) :
    gs1.currentBet = player.currentBet + player.chips ∧
    gs1.minRaise = max gs.minRaise (player.currentBet + player.chips - gs.currentBet) ∧
    ∀ i p q, players.get? i = some p → players1.get? i = some q →
      (p.id ≠ pid ∧ p.seatIndex.isSome = true ∧ p.isFolded = false ∧
          p.isAllIn = false) → q.hasActed = false := by
  unfold GameController.executeAllIn at hok
  rw [hfind] at hok
  dsimp only at hok
  rw [if_pos hgt] at hok
  rw [Except.ok.injEq, Prod.mk.injEq] at hok
  obtain ⟨hgs, hpl⟩ := hok
  refine ⟨by rw [← hgs], by rw [← hgs], ?_⟩
  intro i p q hp hq
  rintro ⟨hid, hseat, hfold, hallin⟩
  rw [← hpl, List.get?_map, hp, Option.map_some'] at hq
  have hq2 := Option.some.inj hq
  rw [← hq2]
  rw [if_neg hid, if_pos (by simp [hseat, hfold, hallin])]

/-- **C7 amended witness**: the undersized all-in scenario instantiated — the
total 25 exceeds `currentBet = 20`, so seat 0's `hasActed` is cleared. -/
theorem executeAllIn_above_currentBet_reopens_witness :
    allInPair.1.currentBet = 20 + 5 ∧
    allInPair.1.minRaise = max allInGS.minRaise (20 + 5 - allInGS.currentBet) ∧
    ∀ i p q, allInPlayers.get? i = some p → allInPair.2.get? i = some q →
      (p.id ≠ "p2" ∧ p.seatIndex.isSome = true ∧ p.isFolded = false ∧
          p.isAllIn = false) → q.hasActed = false :=
  executeAllIn_above_currentBet_reopens allInGS allInPlayers "p2"
    allInPair.1 allInPair.2 shortStackPlayer (by decide) rfl (by decide)

/-- **C8.**  The validation pipeline of `processAction` is ordered — a
duplicate request id wins over everything, then a stale round index, then a
wrong seat, then inability to act — and every failure (including the
executor-level `CANNOT_CHECK_MUST_CALL`, `NOTHING_TO_CALL`,
`RAISE_TOO_SMALL`, `NOT_ENOUGH_CHIPS`) returns the room and request LRU
completely unchanged. -/
theorem processAction_pipeline (lru : GameController.RequestLRU) (room : Room)
    (pid : String) (payload : PlayerActionPayload) (now : Int) (gs : GameState)
    (hgs : room.gameState = some gs) :
    (lru.processedRequests.contains payload.requestId = true →
      GameController.processAction lru room pid payload now =
        ⟨some "DUPLICATE_REQUEST", room, lru, false, false⟩) ∧
    (lru.processedRequests.contains payload.requestId = false →
      payload.roundIndex ≠ gs.roundIndex →
      GameController.processAction lru room pid payload now =
        ⟨some "STALE_REQUEST", room, lru, false, false⟩) ∧
    (∀ player,
      lru.processedRequests.contains payload.requestId = false →
      payload.roundIndex = gs.roundIndex →
      room.players.find? (fun p => decide (p.id = pid)) = some player →
      player.seatIndex ≠ gs.currentPlayerIndex →
      GameController.processAction lru room pid payload now =
        ⟨some "NOT_YOUR_TURN", room, lru, false, false⟩) ∧
    (∀ player,
      lru.processedRequests.contains payload.requestId = false →
      payload.roundIndex = gs.roundIndex →
      room.players.find? (fun p => decide (p.id = pid)) = some player →
      player.seatIndex = gs.currentPlayerIndex →
      player.canAct = false →
      GameController.processAction lru room pid payload now =
        ⟨some "CANNOT_ACT", room, lru, false, false⟩) ∧
    (∀ e, (GameController.processAction lru room pid payload now).error = some e →
      (GameController.processAction lru room pid payload now).room = room ∧
      (GameController.processAction lru room pid payload now).lru = lru) := by
  refine ⟨?_, ?_, ?_, ?_, ?_⟩
  · intro h
    have h' : payload.requestId ∈ lru.processedRequests := by simpa using h
    simp [GameController.processAction, hgs, h']
  · intro h1 h2
    have h1' : payload.requestId ∉ lru.processedRequests := by simpa using h1
    simp [GameController.processAction, hgs, h1', h2]
  · intro player h1 h2 hfind h3
    have h1' : payload.requestId ∉ lru.processedRequests := by simpa using h1
    simp [GameController.processAction, hgs, h1', h2, hfind, h3]
  · intro player h1 h2 hfind h3 h4
    have h1' : payload.requestId ∉ lru.processedRequests := by simpa using h1
    simp [GameController.processAction, hgs, h1', h2, hfind, h3, h4]
  · intro e
    by_cases h1 : payload.requestId ∈ lru.processedRequests
    · simp [GameController.processAction, hgs, h1]
    · by_cases h2 : payload.roundIndex = gs.roundIndex
      · cases hfind : room.players.find? (fun p => decide (p.id = pid)) with
        | none => simp [GameController.processAction, hgs, h1, h2, hfind]
        | some player =>
            by_cases h3 : player.seatIndex = gs.currentPlayerIndex
            · cases h4 : player.canAct with
              | false =>
                  simp [GameController.processAction, hgs, h1, h2, hfind, h3, h4]
              | true =>
                  cases hexec : GameController.executeAction gs room.players pid payload with
                  | error e2 =>
                      simp [GameController.processAction, hgs, h1, h2, hfind, h3,
                        h4, hexec]
                  | ok pr =>
                      intro he
                      simp [GameController.processAction, hgs, h1, h2, hfind, h3,
                        h4, hexec] at he
            · simp [GameController.processAction, hgs, h1, h2, hfind, h3]
      · simp [GameController.processAction, hgs, h1, h2]

/-- **C8 witness**: the pipeline at a concrete room (three players, seat 2 to
act) with a fresh LRU and the raise payload. -/
theorem processAction_pipeline_witness :
    (emptyLRU.processedRequests.contains raisePayload.requestId = true →
      GameController.processAction emptyLRU actionRoom "p3" raisePayload 0 =
        ⟨some "DUPLICATE_REQUEST", actionRoom, emptyLRU, false, false⟩) ∧
    (emptyLRU.processedRequests.contains raisePayload.requestId = false →
      raisePayload.roundIndex ≠ raiseGS.roundIndex →
      GameController.processAction emptyLRU actionRoom "p3" raisePayload 0 =
        ⟨some "STALE_REQUEST", actionRoom, emptyLRU, false, false⟩) ∧
    (∀ player,
      emptyLRU.processedRequests.contains raisePayload.requestId = false →
      raisePayload.roundIndex = raiseGS.roundIndex →
      actionRoom.players.find? (fun p => decide (p.id = "p3")) = some player →
      player.seatIndex ≠ raiseGS.currentPlayerIndex →
      GameController.processAction emptyLRU actionRoom "p3" raisePayload 0 =
        ⟨some "NOT_YOUR_TURN", actionRoom, emptyLRU, false, false⟩) ∧
    (∀ player,
      emptyLRU.processedRequests.contains raisePayload.requestId = false →
      raisePayload.roundIndex = raiseGS.roundIndex →
      actionRoom.players.find? (fun p => decide (p.id = "p3")) = some player →
      player.seatIndex = raiseGS.currentPlayerIndex →
      player.canAct = false →
      GameController.processAction emptyLRU actionRoom "p3" raisePayload 0 =
        ⟨some "CANNOT_ACT", actionRoom, emptyLRU, false, false⟩) ∧
    (∀ e,
      (GameController.processAction emptyLRU actionRoom "p3" raisePayload 0).error =
        some e →
      (GameController.processAction emptyLRU actionRoom "p3" raisePayload 0).room =
        actionRoom ∧
      (GameController.processAction emptyLRU actionRoom "p3" raisePayload 0).lru =
        emptyLRU) :=
  processAction_pipeline emptyLRU actionRoom "p3" raisePayload 0 raiseGS rfl

/-- Auxiliary: no action executor touches `actionHistory` (the history entry
is appended by `processAction` itself, once per successful action). -/
theorem executeAction_preserves_history (gs : GameState) (players : List Player)
    (pid : String) (payload : PlayerActionPayload) (gs1 : GameState)
    (players1 : List Player)
    (hok : GameController.executeAction gs players pid payload =
      Except.ok (gs1, players1)) :
    gs1.actionHistory = gs.actionHistory := by
  unfold GameController.executeAction at hok
  cases hact : payload.action
  all_goals rw [hact] at hok
  case FOLD =>
    unfold GameController.executeFold at hok
    rw [Except.ok.injEq, Prod.mk.injEq] at hok
    rw [← hok.1]
  case CHECK =>
    unfold GameController.executeCheck at hok
    cases hfind : players.find? (fun p => decide (p.id = pid)) with
    | none => rw [hfind] at hok; simp at hok
    | some player =>
        rw [hfind] at hok
        dsimp only at hok
        split_ifs at hok
        rw [Except.ok.injEq, Prod.mk.injEq] at hok
        rw [← hok.1]
  case CALL =>
    unfold GameController.executeCall at hok
    cases hfind : players.find? (fun p => decide (p.id = pid)) with
    | none => rw [hfind] at hok; simp at hok
    | some player =>
        rw [hfind] at hok
        dsimp only at hok
        split_ifs at hok
        rw [Except.ok.injEq, Prod.mk.injEq] at hok
        rw [← hok.1]
  case RAISE =>
    unfold GameController.executeRaise at hok
    cases hfind : players.find? (fun p => decide (p.id = pid)) with
    | none => rw [hfind] at hok; simp at hok
    | some player =>
        rw [hfind] at hok
        dsimp only at hok
        split_ifs at hok
        rw [Except.ok.injEq, Prod.mk.injEq] at hok
        rw [← hok.1]
  case ALL_IN =>
    unfold GameController.executeAllIn at hok
    cases hfind : players.find? (fun p => decide (p.id = pid)) with
    | none => rw [hfind] at hok; simp at hok
    | some player =>
        rw [hfind] at hok
        dsimp only at hok
        split_ifs at hok
        all_goals rw [Except.ok.injEq, Prod.mk.injEq] at hok
        all_goals rw [← hok.1]

/-- Auxiliary: `moveToNextPlayer` only moves the turn; the action history is
untouched. -/
theorem moveToNextPlayer_preserves_history (players : List Player)
    (config : RoomConfig) (gs : GameState) (now : Int) :
    (GameController.moveToNextPlayer players config gs now).1.actionHistory =
      gs.actionHistory := by
  unfold GameController.moveToNextPlayer
  dsimp only
  split
  · rfl
  · split
    · rfl
    · rfl

/-- Auxiliary: after `addProcessedRequest`, the request id is in the set. -/
theorem addProcessedRequest_contains (lru : GameController.RequestLRU)
    (rid : String) :
    (GameController.addProcessedRequest lru rid).processedRequests.contains rid =
      true := by
  unfold GameController.addProcessedRequest
  dsimp only
  split_ifs <;> simp_all

/-- Auxiliary: `addProcessedRequest` keeps the set bounded by 500 (using the
maintained invariant that the set lists exactly the queued ids). -/
theorem addProcessedRequest_bounded (lru : GameController.RequestLRU)
    (rid : String)
    (hsync : lru.processedRequests = lru.requestQueue)
    (hcap : lru.processedRequests.length ≤ 500) :
    (GameController.addProcessedRequest lru rid).processedRequests.length ≤ 500 := by
  unfold GameController.addProcessedRequest
  dsimp only
  by_cases hfull : 500 ≤ lru.processedRequests.length
  · cases hq : lru.requestQueue with
    | nil =>
        rw [hsync, hq] at hcap hfull
        simp at hfull
    | cons oldest restQueue =>
        simp only [if_pos hfull, hq]
        have herase : lru.processedRequests.erase oldest = restQueue := by
          rw [hsync, hq]
          exact List.erase_cons_head oldest restQueue
        have hlen : restQueue.length + 1 ≤ 500 := by
          rw [hsync, hq] at hcap
          simpa using hcap
        by_cases hc : (lru.processedRequests.erase oldest).contains rid
        · simp only [hc, if_pos]
          rw [herase]
          omega
        · simp only [hc]
          simp only [Bool.false_eq_true, if_false, List.length_append,
            List.length_cons, List.length_nil]
          rw [herase]
          omega
  · simp only [if_neg hfull]
    by_cases hc : lru.processedRequests.contains rid
    · simp only [hc, if_pos]
      exact hcap
    · simp only [hc]
      simp only [Bool.false_eq_true, if_false, List.length_append,
        List.length_cons, List.length_nil]
      omega

/-- Auxiliary: the shape of a successful `processAction`: the request id was
new, it is recorded through `addProcessedRequest`, and exactly one
`actionHistory` entry is appended. -/
theorem processAction_success_shape (lru : GameController.RequestLRU)
    (room : Room) (pid : String) (payload : PlayerActionPayload) (now : Int)
    (gs : GameState)
    (hgs : room.gameState = some gs)
    (hsucc : (GameController.processAction lru room pid payload now).error = none) :
    payload.requestId ∉ lru.processedRequests ∧
    (GameController.processAction lru room pid payload now).lru =
      GameController.addProcessedRequest lru payload.requestId ∧
    ∃ gs1,
      (GameController.processAction lru room pid payload now).room.gameState =
        some gs1 ∧
      gs1.actionHistory.length = gs.actionHistory.length + 1 := by
  by_cases h1 : payload.requestId ∈ lru.processedRequests
  · exfalso
    simp [GameController.processAction, hgs, h1] at hsucc
  · refine ⟨h1, ?_⟩
    by_cases h2 : payload.roundIndex = gs.roundIndex
    · cases hfind : room.players.find? (fun p => decide (p.id = pid)) with
      | none =>
          exfalso
          simp [GameController.processAction, hgs, h1, h2, hfind] at hsucc
      | some player =>
          by_cases h3 : player.seatIndex = gs.currentPlayerIndex
          · cases h4 : player.canAct with
            | false =>
                exfalso
                simp [GameController.processAction, hgs, h1, h2, hfind, h3, h4]
                  at hsucc
            | true =>
                cases hexec :
                    GameController.executeAction gs room.players pid payload with
                | error e2 =>
                    exfalso
                    simp [GameController.processAction, hgs, h1, h2, hfind, h3,
                      h4, hexec] at hsucc
                | ok pr =>
                    obtain ⟨gs1, players1⟩ := pr
                    have hhist := executeAction_preserves_history gs room.players
                      pid payload gs1 players1 hexec
                    constructor
                    · simp [GameController.processAction, hgs, h1, h2, hfind, h3,
                        h4, hexec]
                    · simp [GameController.processAction, hgs, h1, h2,
                        hfind, h3, h4, hexec]
                      split
                      · rw [moveToNextPlayer_preserves_history]
                        simp [hhist]
                      · simp [hhist]
          · exfalso
            simp [GameController.processAction, hgs, h1, h2, hfind, h3] at hsucc
    · exfalso
      simp [GameController.processAction, hgs, h1, h2] at hsucc

/-- **C9.**  Idempotency via the bounded request LRU: after a successful
action, the request id is held in the (≤ 500 entry) processed set, the action
appended exactly one `actionHistory` entry, and resubmitting any action with
the same request id is rejected with `DUPLICATE_REQUEST` leaving the room and
LRU untouched — so at most one history entry is produced for the request
id. -/
theorem processAction_idempotent (lru : GameController.RequestLRU)
    (room : Room) (pid pid2 : String)
    (payload payload2 : PlayerActionPayload) (now now2 : Int) (gs : GameState)
    (hgs : room.gameState = some gs)
    (hsucc : (GameController.processAction lru room pid payload now).error = none)
    (hrid : payload2.requestId = payload.requestId)
    (hsync : lru.processedRequests = lru.requestQueue)
    (hcap : lru.processedRequests.length ≤ 500) :
    (GameController.processAction lru room pid payload
        now).lru.processedRequests.contains payload.requestId = true ∧
    (GameController.processAction lru room pid payload
        now).lru.processedRequests.length ≤ 500 ∧
    (∃ gs1,
      (GameController.processAction lru room pid payload now).room.gameState =
        some gs1 ∧
      gs1.actionHistory.length = gs.actionHistory.length + 1) ∧
    GameController.processAction
        (GameController.processAction lru room pid payload now).lru
        (GameController.processAction lru room pid payload now).room
        pid2 payload2 now2 =
      ⟨some "DUPLICATE_REQUEST",
       (GameController.processAction lru room pid payload now).room,
       (GameController.processAction lru room pid payload now).lru,
       false, false⟩ := by
  obtain ⟨hnew, hlru, gs1, hgs1, hlen⟩ :=
    processAction_success_shape lru room pid payload now gs hgs hsucc
  have hcont : (GameController.processAction lru room pid payload
      now).lru.processedRequests.contains payload.requestId = true := by
    rw [hlru]
    exact addProcessedRequest_contains lru payload.requestId
  refine ⟨hcont, ?_, ⟨gs1, hgs1, hlen⟩, ?_⟩
  · rw [hlru]
    exact addProcessedRequest_bounded lru payload.requestId hsync hcap
  · have hmem : payload2.requestId ∈
        (GameController.processAction lru room pid payload
          now).lru.processedRequests := by
      rw [hrid]
      simpa using hcont
    generalize hO : GameController.processAction lru room pid payload now = O
      at hgs1 hmem ⊢
    simp [GameController.processAction, hgs1, hmem]

/-- **C9 witness**: seat 2's raise processed once succeeds and records
`req-1`; replaying the same payload is rejected with `DUPLICATE_REQUEST` and
changes nothing. -/
theorem processAction_idempotent_witness :
    (GameController.processAction emptyLRU actionRoom "p3" raisePayload
        0).lru.processedRequests.contains raisePayload.requestId = true ∧
    (GameController.processAction emptyLRU actionRoom "p3" raisePayload
        0).lru.processedRequests.length ≤ 500 ∧
    (∃ gs1,
      (GameController.processAction emptyLRU actionRoom "p3" raisePayload
          0).room.gameState = some gs1 ∧
      gs1.actionHistory.length = raiseGS.actionHistory.length + 1) ∧
    GameController.processAction
        (GameController.processAction emptyLRU actionRoom "p3" raisePayload 0).lru
        (GameController.processAction emptyLRU actionRoom "p3" raisePayload 0).room
        "p3" raisePayload 99 =
      ⟨some "DUPLICATE_REQUEST",
       (GameController.processAction emptyLRU actionRoom "p3" raisePayload 0).room,
       (GameController.processAction emptyLRU actionRoom "p3" raisePayload 0).lru,
       false, false⟩ :=
  processAction_idempotent emptyLRU actionRoom "p3" "p3" raisePayload
    raisePayload 0 99 raiseGS rfl (by decide) rfl rfl (by decide)

end PocketHoldem
